import Mathlib

/-!
# Verification of the terminal market-data dashboard (`src/main.rs`)

Shallow embedding of the interactive core of the Rust TUI program:

* the focus & scroll controller (the key-event `match` in `main`),
* the geometry computations of `draw` (layout splits and the description
  column width),
* the row formatter `build_market_data_row` (percent-change formatting and
  description word-wrapping via the `textwrap` crate),
* the frame composer `draw` (borders, table rows, scrollbar state).

Rust `usize` values are modelled as `Nat`; where overflow of a `usize`
addition is observable (the unbounded `latest_news_scroll_pos += 1`) the
increment is taken modulo `2 ^ 64`, matching release-mode wrapping
semantics.  `f64` prices are modelled as exact rationals (`ℚ`); all
concrete prices appearing in the claims (`1000.0`, `900.0`) are exactly
representable and the displayed 2-decimal roundings involved are far from
ties, so the rational model agrees with IEEE double evaluation there.
-/

namespace TuiDashboard

/-- `usize` modulus: the Rust target is 64-bit. -/
def USIZE : Nat := 2 ^ 64

/-- The two focusable panels (`enum MarketDataActivePanel` in the source). -/
inductive MarketDataActivePanel where
  | MarketData
  | LatestNews
deriving DecidableEq, Repr

/-- The mutable interactive state (`struct UIState` in the source). -/
structure UIState where
  market_data_active_panel : MarketDataActivePanel
  market_data_scroll_pos : Nat
  latest_news_scroll_pos : Nat
deriving DecidableEq, Repr

/-- The key codes the main loop inspects.  `other` stands for every key
code the `match` ignores via its `_` arm. -/
inductive KeyCode where
  | charQ
  | esc
  | left
  | right
  | down
  | up
  | other
deriving DecidableEq, Repr

/-- The initial `UIState` constructed in `main`. -/
def initUIState : UIState :=
  { market_data_active_panel := MarketDataActivePanel.MarketData
    market_data_scroll_pos := 0
    latest_news_scroll_pos := 0 }

/-- One transition of the focus & scroll controller: the key-event `match`
in `main`, with `quotesLen = app_state.quotes.len()`.  The quit keys
(`'q'`/`Esc`) break the loop without touching the state, so state-wise they
are the identity.  `min`/`saturating_sub` on `usize` are `min`/`∸` on `Nat`;
the unbounded news increment wraps at `2 ^ 64`. -/
def stepUI (quotesLen : Nat) (k : KeyCode) (s : UIState) : UIState :=
  match k with
  | KeyCode.charQ => s
  | KeyCode.esc => s
  | KeyCode.left =>
      { s with market_data_active_panel := MarketDataActivePanel.MarketData }
  | KeyCode.right =>
      { s with market_data_active_panel := MarketDataActivePanel.LatestNews }
  | KeyCode.down =>
      match s.market_data_active_panel with
      | MarketDataActivePanel.MarketData =>
          { s with market_data_scroll_pos := min (quotesLen - 1) (s.market_data_scroll_pos + 1) }
      | MarketDataActivePanel.LatestNews =>
          { s with latest_news_scroll_pos := (s.latest_news_scroll_pos + 1) % USIZE }
  | KeyCode.up =>
      match s.market_data_active_panel with
      | MarketDataActivePanel.MarketData =>
          { s with market_data_scroll_pos := s.market_data_scroll_pos - 1 }
      | MarketDataActivePanel.LatestNews =>
          { s with latest_news_scroll_pos := s.latest_news_scroll_pos - 1 }
  | KeyCode.other => s

/-- Applying a whole sequence of key events, in order. -/
def applyKeys (quotesLen : Nat) (ks : List KeyCode) (s : UIState) : UIState :=
  ks.foldl (fun s k => stepUI quotesLen k s) s

/-- Both `usize` scroll offsets fit in a machine word. -/
def WFUI (s : UIState) : Prop :=
  s.market_data_scroll_pos < USIZE ∧ s.latest_news_scroll_pos < USIZE

instance (s : UIState) : Decidable (WFUI s) := by
  unfold WFUI; infer_instance

/-- Unfolding: `Down` with the market-data panel focused. -/
lemma stepUI_down_market (quotesLen : Nat) (s : UIState)
    (h : s.market_data_active_panel = MarketDataActivePanel.MarketData) :
    stepUI quotesLen KeyCode.down s
      = { s with market_data_scroll_pos := min (quotesLen - 1) (s.market_data_scroll_pos + 1) } := by
  simp [stepUI, h]

/-- Unfolding: `Down` with the news panel focused. -/
lemma stepUI_down_news (quotesLen : Nat) (s : UIState)
    (h : s.market_data_active_panel = MarketDataActivePanel.LatestNews) :
    stepUI quotesLen KeyCode.down s
      = { s with latest_news_scroll_pos := (s.latest_news_scroll_pos + 1) % USIZE } := by
  simp [stepUI, h]

/-- Unfolding: `Up` with the market-data panel focused. -/
lemma stepUI_up_market (quotesLen : Nat) (s : UIState)
    (h : s.market_data_active_panel = MarketDataActivePanel.MarketData) :
    stepUI quotesLen KeyCode.up s
      = { s with market_data_scroll_pos := s.market_data_scroll_pos - 1 } := by
  simp [stepUI, h]

/-- Unfolding: `Up` with the news panel focused. -/
lemma stepUI_up_news (quotesLen : Nat) (s : UIState)
    (h : s.market_data_active_panel = MarketDataActivePanel.LatestNews) :
    stepUI quotesLen KeyCode.up s
      = { s with latest_news_scroll_pos := s.latest_news_scroll_pos - 1 } := by
  simp [stepUI, h]

/-- The market-data scroll bound is preserved by any single transition. -/
lemma stepUI_scroll_bound (quotesLen : Nat) (k : KeyCode) (s : UIState)
    (h : s.market_data_scroll_pos ≤ quotesLen - 1) :
    (stepUI quotesLen k s).market_data_scroll_pos ≤ quotesLen - 1 := by
  cases k
  case down =>
    cases hp : s.market_data_active_panel
    · rw [stepUI_down_market quotesLen s hp]
      show min (quotesLen - 1) (s.market_data_scroll_pos + 1) ≤ quotesLen - 1
      omega
    · rw [stepUI_down_news quotesLen s hp]
      exact h
  case up =>
    cases hp : s.market_data_active_panel
    · rw [stepUI_up_market quotesLen s hp]
      show s.market_data_scroll_pos - 1 ≤ quotesLen - 1
      omega
    · rw [stepUI_up_news quotesLen s hp]
      exact h
  all_goals exact h

/-- The scroll bound holds for every state reached from `initUIState`. -/
lemma applyKeys_scroll_bound (quotesLen : Nat) (ks : List KeyCode)
    (s : UIState) (h : s.market_data_scroll_pos ≤ quotesLen - 1) :
    (applyKeys quotesLen ks s).market_data_scroll_pos ≤ quotesLen - 1 := by
  induction ks generalizing s with
  | nil => exact h
  | cons k ks ih =>
      exact ih _ (stepUI_scroll_bound quotesLen k s h)

/-- **C1.** For every sequence of key events applied to the initial
`UIState` with a fixed quote list, `0 ≤ market_data_scroll_pos ≤
max 0 (len - 1)` holds after every transition (every prefix of the
sequence is itself such a sequence); in particular when the quote list is
empty the offset stays `0`.  On `Nat` the lower bound is implicit and
`max 0 (len - 1)` is `len - 1` with truncated subtraction. -/
theorem scroll_pos_invariant (quotesLen : Nat) (ks : List KeyCode) :
    (applyKeys quotesLen ks initUIState).market_data_scroll_pos
        ≤ max 0 (quotesLen - 1) ∧
    (quotesLen = 0 →
      (applyKeys quotesLen ks initUIState).market_data_scroll_pos = 0) := by
  have h := applyKeys_scroll_bound quotesLen ks initUIState
    (by simp [initUIState])
  refine ⟨by simpa using h, fun h0 => ?_⟩
  subst h0
  simpa using h

/-- The last element of a nonempty list of Left/Right keys decides focus:
the step for `left`/`right` sets the panel unconditionally. -/
theorem focus_after_left (quotesLen : Nat) (s : UIState) :
    (stepUI quotesLen KeyCode.left s).market_data_active_panel
      = MarketDataActivePanel.MarketData := rfl

/-- **C3.** After any sequence of key events ending in a directional key
(`Left` or `Right`), exactly one panel is focused: the focused panel is
`MarketData` iff the most recent directional key was `Left`, and
`LatestNews` iff it was `Right`.  Since the prefix `ks` is arbitrary this
covers every sequence of Left/Right events and every position of the most
recent directional key. -/
theorem focus_exclusivity (quotesLen : Nat) (s : UIState)
    (ks : List KeyCode) (k : KeyCode)
    (hk : k = KeyCode.left ∨ k = KeyCode.right) :
    ((applyKeys quotesLen (ks ++ [k]) s).market_data_active_panel
        = MarketDataActivePanel.MarketData ↔ k = KeyCode.left) ∧
    ((applyKeys quotesLen (ks ++ [k]) s).market_data_active_panel
        = MarketDataActivePanel.LatestNews ↔ k = KeyCode.right) := by
  have happ : applyKeys quotesLen (ks ++ [k]) s
      = stepUI quotesLen k (applyKeys quotesLen ks s) := by
    simp [applyKeys]
  rcases hk with hk | hk <;> subst hk <;> rw [happ] <;>
    simp [stepUI]

/-- Witness for **C3** at a concrete input: after `Right` then `Left`,
focus is back on the market-data panel and not on the news panel. -/
theorem focus_exclusivity_witness :
    ((applyKeys 10 ([KeyCode.right] ++ [KeyCode.left]) initUIState).market_data_active_panel
        = MarketDataActivePanel.MarketData ↔ KeyCode.left = KeyCode.left) ∧
    ((applyKeys 10 ([KeyCode.right] ++ [KeyCode.left]) initUIState).market_data_active_panel
        = MarketDataActivePanel.LatestNews ↔ KeyCode.left = KeyCode.right) :=
  focus_exclusivity 10 initUIState [KeyCode.right] KeyCode.left (Or.inl rfl)

/-- **C4.** With focus on `MarketData`: a `Down` key sets
`market_data_scroll_pos` to `min (len - 1) (pos + 1)` when the quote list
is nonempty and is a no-op on the whole state when it is empty (on any
reachable state the offset is then `0` by `scroll_pos_invariant`); an `Up`
key sets the offset to `max 0 (pos - 1)`, i.e. `pos ∸ 1`.  Concretely,
from offset `0` with `10` quotes, nine `Down` events reach exactly `9` and
a tenth `Down` leaves it at `9`. -/
theorem down_up_semantics (quotesLen : Nat) (s : UIState)
    (hfocus : s.market_data_active_panel = MarketDataActivePanel.MarketData) :
    ((0 < quotesLen →
        (stepUI quotesLen KeyCode.down s).market_data_scroll_pos
          = min (quotesLen - 1) (s.market_data_scroll_pos + 1)) ∧
      (quotesLen = 0 → s.market_data_scroll_pos = 0 →
        stepUI quotesLen KeyCode.down s = s) ∧
      (stepUI quotesLen KeyCode.up s).market_data_scroll_pos
        = s.market_data_scroll_pos - 1) ∧
    (applyKeys 10 (List.replicate 9 KeyCode.down) initUIState).market_data_scroll_pos = 9 ∧
    (applyKeys 10 (List.replicate 10 KeyCode.down) initUIState).market_data_scroll_pos = 9 := by
  refine ⟨⟨fun _ => ?_, fun h0 hp => ?_, ?_⟩, by decide, by decide⟩
  · rw [stepUI_down_market quotesLen s hfocus]
  · subst h0
    rw [stepUI_down_market 0 s hfocus]
    cases s
    simp_all
  · rw [stepUI_up_market quotesLen s hfocus]

/-- Witness for **C4** at a concrete input: the focused initial state with
10 quotes. -/
theorem down_up_semantics_witness :
    ((0 < 10 →
        (stepUI 10 KeyCode.down initUIState).market_data_scroll_pos
          = min (10 - 1) (initUIState.market_data_scroll_pos + 1)) ∧
      ((10 : Nat) = 0 → initUIState.market_data_scroll_pos = 0 →
        stepUI 10 KeyCode.down initUIState = initUIState) ∧
      (stepUI 10 KeyCode.up initUIState).market_data_scroll_pos
        = initUIState.market_data_scroll_pos - 1) ∧
    (applyKeys 10 (List.replicate 9 KeyCode.down) initUIState).market_data_scroll_pos = 9 ∧
    (applyKeys 10 (List.replicate 10 KeyCode.down) initUIState).market_data_scroll_pos = 9 :=
  down_up_semantics 10 initUIState rfl

/-- **C7.** Every transition of the focus & scroll controller is a total
function of the current state: for every state and key event there is a
unique next state (`stepUI` is a function, so existence and uniqueness are
definitional), and well-formedness of the `usize` offsets is preserved —
including `Down` with focus on `LatestNews`, whose unbounded increment
wraps at `2 ^ 64` (release-mode `usize` semantics) instead of failing. -/
theorem step_total (quotesLen : Nat) (k : KeyCode) (s : UIState)
    (hlen : quotesLen < USIZE) (hwf : WFUI s) :
    (∃! s', stepUI quotesLen k s = s') ∧ WFUI (stepUI quotesLen k s) := by
  refine ⟨⟨stepUI quotesLen k s, rfl, fun _ h => h.symm⟩, ?_⟩
  obtain ⟨hmd, hnews⟩ := hwf
  have hU : 0 < USIZE := by norm_num [USIZE]
  cases k
  case down =>
    cases hp : s.market_data_active_panel
    · rw [stepUI_down_market quotesLen s hp]
      refine ⟨?_, hnews⟩
      show min (quotesLen - 1) (s.market_data_scroll_pos + 1) < USIZE
      omega
    · rw [stepUI_down_news quotesLen s hp]
      exact ⟨hmd, Nat.mod_lt _ hU⟩
  case up =>
    cases hp : s.market_data_active_panel
    · rw [stepUI_up_market quotesLen s hp]
      refine ⟨?_, hnews⟩
      show s.market_data_scroll_pos - 1 < USIZE
      omega
    · rw [stepUI_up_news quotesLen s hp]
      refine ⟨hmd, ?_⟩
      show s.latest_news_scroll_pos - 1 < USIZE
      omega
  all_goals exact ⟨hmd, hnews⟩

/-- Witness for **C7** at a concrete input: the initial state, focused on
the news panel, with a `Down` key. -/
theorem step_total_witness :
    (∃! s', stepUI 10 KeyCode.down
        { initUIState with
            market_data_active_panel := MarketDataActivePanel.LatestNews } = s') ∧
    WFUI (stepUI 10 KeyCode.down
        { initUIState with
            market_data_active_panel := MarketDataActivePanel.LatestNews }) :=
  step_total 10 KeyCode.down
    { initUIState with
        market_data_active_panel := MarketDataActivePanel.LatestNews }
    (by norm_num [USIZE]) (by decide)

/-! ## Data model: companies, quotes, application state -/

/-- `struct Company` in the source. -/
structure Company where
  ticker : String
  name : String
  description : String
deriving DecidableEq, Repr

/-- `struct Quote` in the source; `f64` prices modelled as exact rationals. -/
structure Quote where
  price : ℚ
  price_yesterday : ℚ
deriving DecidableEq, Repr

/-- `struct StockQuote` in the source (the borrowed reference to the
company is modelled by an owned copy, which is observationally the same
since `Company` is never mutated). -/
structure StockQuote where
  company : Company
  quote : Quote
deriving DecidableEq, Repr

/-- `struct AppState` in the source. -/
structure AppState where
  quotes : List StockQuote
  currency_name_plural : String
  currency_symbol : String
deriving DecidableEq, Repr

/-- The colors `draw` and `build_market_data_row` use. -/
inductive Color where
  | Green
  | Red
  | Yellow
deriving DecidableEq, Repr

/-! ## Formatting helpers (Rust `format!` fixed-width numeric fields) -/

/-- Right-align a string in a field of `w` columns (Rust `>` fill). -/
def padLeft (w : Nat) (s : String) : String :=
  String.mk (List.replicate (w - s.length) ' ') ++ s

/-- Left-align a string in a field of `w` columns (Rust `<` fill). -/
def padRight (w : Nat) (s : String) : String :=
  s ++ String.mk (List.replicate (w - s.length) ' ')

/-- Render a rational with exactly two decimal places, rounding half away
from zero: `n` is `floor(|q| * 100 + 1/2)` computed on the reduced
numerator and denominator (`q < 0` iff `q.num < 0`).  Rust formats the
`f64` value to the nearest 2-decimal string; for the concrete prices
appearing in the claims the value is far from a rounding tie, so the two
roundings agree. -/
def fmtFixed2 (q : ℚ) : String :=
  let sign := if q.num < 0 then "-" else ""
  let n : Nat := (q.num.natAbs * 200 + q.den) / (2 * q.den)
  let ip := n / 100
  let fp := n % 100
  sign ++ toString ip ++ "." ++ (if fp < 10 then "0" else "") ++ toString fp

/-! ## The `textwrap` collaborator

`build_market_data_row` wraps the description with
`textwrap::wrap(text, Options::new(description_width))`.  `Options::new`
fixes two defaults independently of crate features:

* `break_words = true` — a fragment wider than the line width is broken
  into pieces of at most the line width;
* `word_splitter = WordSplitter::HyphenSplitter` — a word may be split
  after an existing hyphen whose neighbouring characters are both
  alphanumeric, so a hyphenated word that fits the width can still be
  split across lines when only its prefix fits.

The pipeline (as in `textwrap::wrap`) is: separate words at spaces,
split each word at its hyphen split points, break over-wide fragments
into width-sized pieces, then fill lines; fragments of one word are
glued without a space, distinct words are separated by one space.
Modelled from the spec: the choice of wrap algorithm (greedy first-fit
versus the `smart`-feature optimal-fit) is fixed by the crate features in
the repository's `Cargo.toml`, which is not part of the sources here, and
the spec prescribes standard greedy word-wrap ("pack words onto a line
until the next word would exceed the width, then break"), so the fill
below is greedy first-fit. -/

/-- Accumulator-based splitting of a character list at spaces; `acc`
holds the current word reversed.  (Structural recursion instead of
`String.split`, whose well-founded recursion the kernel cannot
evaluate.) -/
def wordsAux : List Char → List Char → List String
  | [], acc => if acc.isEmpty then [] else [String.mk acc.reverse]
  | c :: cs, acc =>
      if c = ' ' then
        if acc.isEmpty then wordsAux cs []
        else String.mk acc.reverse :: wordsAux cs []
      else wordsAux cs (c :: acc)

/-- Split a description into its space-separated words. -/
def splitWords (s : String) : List String :=
  wordsAux s.data []

/-- Split a word's characters after each hyphen flanked by alphanumeric
characters (`WordSplitter::HyphenSplitter`); `acc` holds the current
fragment reversed, so `acc.head?` is the character right before the
hyphen.  `Char.isAlphanum` coincides with Rust's `is_alphanumeric` on the
ASCII descriptions at hand. -/
def hyphenFragsAux : List Char → List Char → List String
  | [], acc => if acc.isEmpty then [] else [String.mk acc.reverse]
  | '-' :: c :: rest, acc =>
      if (acc.head?.elim false Char.isAlphanum) && Char.isAlphanum c then
        String.mk ('-' :: acc).reverse :: hyphenFragsAux (c :: rest) []
      else
        hyphenFragsAux (c :: rest) ('-' :: acc)
  | c :: rest, acc => hyphenFragsAux rest (c :: acc)

/-- The hyphen fragments of one word; `[word]` iff the word has no
hyphen split point. -/
def hyphenPieces (word : String) : List String :=
  hyphenFragsAux word.data []

/-- One line fragment: its text, and whether the next fragment belongs to
the same word (in which case no space separates them). -/
structure Frag where
  text : String
  glueNext : Bool
deriving DecidableEq, Repr

/-- Turn the consecutive pieces of one word into fragments: every piece
but the last glues to its successor; the last piece carries the word's
own glue flag. -/
def fragsOfChunks (glueLast : Bool) : List String → List Frag
  | [] => []
  | [c] => [{ text := c, glueNext := glueLast }]
  | c :: cs => { text := c, glueNext := true } :: fragsOfChunks glueLast cs

/-- The fragments of one word after hyphen splitting; the word itself is
word-final, so its last fragment does not glue. -/
def wordFrags (word : String) : List Frag :=
  fragsOfChunks false (hyphenPieces word)

/-- Cut a character list into pieces of at most `w` characters
(`w ≥ 1`); the first argument is fuel, instantiated to the list length. -/
def chunkCharsAux (w : Nat) : Nat → List Char → List (List Char)
  | 0, _ => []
  | _, [] => []
  | Nat.succ fuel, cs => cs.take w :: chunkCharsAux w fuel (cs.drop w)

/-- Break one fragment into pieces of at most `width` characters;
fragments that already fit are left whole (`textwrap` `break_words`).
The forced chunks glue to each other; the last chunk keeps the
fragment's glue flag. -/
def breakFrag (width : Nat) (f : Frag) : List Frag :=
  if f.text.length ≤ width then [f]
  else
    fragsOfChunks f.glueNext
      ((chunkCharsAux (max width 1) f.text.length f.text.data).map String.mk)

/-- Greedy first-fit filling over fragments: append the next fragment
(with a space unless the previous fragment glues to it) while the line
stays within `width`, else start a new line.  `cur` is the line being
built, already nonempty; `prevGlue` says whether the fragment that ended
`cur` glues to the next one. -/
def greedyFragsAux (width : Nat) : List Frag → String → Bool → List String
  | [], cur, _ => [cur]
  | f :: fs, cur, prevGlue =>
      if cur.length + (if prevGlue then 0 else 1) + f.text.length ≤ width then
        greedyFragsAux width fs (cur ++ (if prevGlue then "" else " ") ++ f.text) f.glueNext
      else
        cur :: greedyFragsAux width fs f.text f.glueNext

/-- The full fragment stream of a text at a given width: words, split at
hyphens, with over-wide fragments broken. -/
def textFrags (width : Nat) (s : String) : List Frag :=
  ((((splitWords s).map wordFrags).flatten.map (breakFrag width))).flatten

/-- The wrap the code performs: `textwrap::wrap` modelled as
hyphen-splitting and break-words followed by greedy first-fit over the
fragments.  `textwrap::wrap` returns one (possibly empty) line for empty
input. -/
def wrapText (width : Nat) (s : String) : List String :=
  match textFrags width s with
  | [] => [""]
  | f :: fs => greedyFragsAux width fs f.text f.glueNext

/-- Greedy first-fit filling over whole words with single separating
spaces, for the spec-side wrap.  `cur` is the line being built, already
nonempty. -/
def greedyFillAux (width : Nat) : List String → String → List String
  | [], cur => [cur]
  | w :: ws, cur =>
      if cur.length + 1 + w.length ≤ width then
        greedyFillAux width ws (cur ++ " " ++ w)
      else
        cur :: greedyFillAux width ws w

/-- Modelled from the spec: standard greedy word-wrap that never splits a
word ("words are never split; words are packed onto a line until the next
word would exceed the width, then a new line starts"). -/
def wrapGreedySpec (width : Nat) (s : String) : List String :=
  match splitWords s with
  | [] => [""]
  | w :: ws => greedyFillAux width ws w

/-! ## The row formatter `build_market_data_row` -/

/-- One table cell: its text lines and an optional foreground color. -/
structure Cell where
  lines : List String
  color : Option Color
deriving DecidableEq, Repr

/-- One table row together with its height (`Row::new(...).height(h)`). -/
structure TableRow where
  cells : List Cell
  height : Nat
deriving DecidableEq, Repr

/-- `build_market_data_row` in the source: percent change
`(price - price_yesterday) / price_yesterday * 100`; price formatted
right-aligned to width 7 with 2 decimals followed by a space and the
currency symbol left-aligned to width 3; percent change formatted
right-aligned to width 6 with 2 decimals followed by a percent sign,
colored green when `percent_change >= 0.0` and red otherwise; the
description wrapped to `description_width`; the row height set to the
number of wrapped description lines. -/
def build_market_data_row (sq : StockQuote) (currency_symbol : String)
    (description_width : Nat) : TableRow :=
  let percent_change : ℚ :=
    (sq.quote.price - sq.quote.price_yesterday) / sq.quote.price_yesterday * 100
  let description_lines := wrapText description_width sq.company.description
  let description_height := description_lines.length
  { cells :=
      [ { lines := [sq.company.ticker], color := none }
      , { lines := [sq.company.name], color := none }
      , { lines := [padLeft 7 (fmtFixed2 sq.quote.price) ++ " " ++ padRight 3 currency_symbol]
          color := none }
      , { lines := [padLeft 6 (fmtFixed2 percent_change) ++ "%"]
          color := some (if 0 ≤ percent_change then Color.Green else Color.Red) }
      , { lines := description_lines, color := none } ]
    height := description_height }

/-! ## Geometry planner: the layout computations inside `draw` -/

/-- A terminal rectangle (`ratatui::layout::Rect` with `Nat` fields). -/
structure Rect where
  x : Nat
  y : Nat
  width : Nat
  height : Nat
deriving DecidableEq, Repr

/-- `Layout::vertical([Length(1), Min(0), Length(1)])` over the frame
area: a 1-row title, the remaining body, a 1-row status line (the fixed
rows shrink first on degenerate heights). -/
def mainAreas (area : Rect) : Rect × Rect × Rect :=
  let titleH := min 1 area.height
  let statusH := min 1 (area.height - titleH)
  let mainH := area.height - titleH - statusH
  ( { area with height := titleH }
  , { x := area.x, y := area.y + titleH, width := area.width, height := mainH }
  , { x := area.x, y := area.y + titleH + mainH, width := area.width, height := statusH } )

/-- `Layout::horizontal([Fill(1); 2])` over the body: two equal halves,
the left one taking the odd spare column.  (Which half receives the spare
column is irrelevant to every property stated below.) -/
def splitHalves (area : Rect) : Rect × Rect :=
  let leftW := (area.width + 1) / 2
  ( { area with width := leftW }
  , { x := area.x + leftW, y := area.y, width := area.width - leftW, height := area.height } )

/-- `Block::bordered().inner(area)`: one border cell on each side. -/
def blockInner (area : Rect) : Rect :=
  { x := area.x + 1, y := area.y + 1, width := area.width - 2, height := area.height - 2 }

/-- `Layout::vertical([Fill(1), Length(1)])` inside the market-data
block: flexible table region above a fixed 1-row status line. -/
def marketDataVertical (inner : Rect) : Rect × Rect :=
  let statusH := min 1 inner.height
  let tableH := inner.height - statusH
  ( { inner with height := tableH }
  , { x := inner.x, y := inner.y + tableH, width := inner.width, height := statusH } )

/-- Width of the fifth, `Fill(1)` column of
`Layout::horizontal([Length(8), Length(30), Length(10), Length(7), Fill(1)])`:
whatever remains after the fixed columns (the `Length` constraints have
priority over `Fill`, so the fill column is empty when the table is
narrower than `8 + 30 + 10 + 7 = 55`). -/
def fillColumnWidth (tableWidth : Nat) : Nat :=
  tableWidth - (8 + 30 + 10 + 7)

/-- The `description_width` expression in `draw`:
`max(fill_column_width, 24) - 4` (the subtraction accounts for the column
spacing, the comment in the source says "remember to subtract column
spacing, and give it some minimum"). -/
def description_width_of (tableArea : Rect) : Nat :=
  max (fillColumnWidth tableArea.width) 24 - 4

/-- The market-data table area as `draw` derives it from the frame area:
body split → left half → block interior → table region above the 1-row
status line. -/
def marketDataTableArea (area : Rect) : Rect :=
  ((marketDataVertical (blockInner (splitHalves (mainAreas area).2.1).1))).1

/-- The description column width `draw` hands to the row formatter, as a
function of the whole terminal area. -/
def descriptionWidth (area : Rect) : Nat :=
  description_width_of (marketDataTableArea area)

/-! ## Frame composer `draw` -/

/-- The scrollbar state built each render
(`ScrollbarState::default().content_length(..).position(..).viewport_content_length(5)`). -/
structure ScrollbarState where
  content_length : Nat
  position : Nat
  viewport_content_length : Nat
deriving DecidableEq, Repr

/-- The market-data table widget: bold header plus the data rows. -/
structure TableWidget where
  header : List String
  rows : List TableRow
deriving DecidableEq, Repr

/-- Everything `draw` renders into the frame, as pure data. -/
structure FrameContent where
  title : String
  status_title : String
  market_data_title : String
  market_data_border_color : Option Color
  latest_news_title : String
  latest_news_border_color : Option Color
  table : TableWidget
  scrollbar : ScrollbarState
  scrollbar_color : Option Color
  price_footer : String
deriving DecidableEq, Repr

/-- The frame composer `draw` in the source, as a pure function from the
application state, the interactive state and the terminal area to the
rendered contents.  The row iterator
`quotes.iter().skip(scroll_pos).map(build_market_data_row ..)` becomes
`drop` followed by `map`; border and scrollbar styles are yellow exactly
for the focused panel. -/
def draw (app_state : AppState) (uistate : UIState) (area : Rect) : FrameContent :=
  let active_border_style := some Color.Yellow
  let inactive_border_style := (none : Option Color)
  let market_data_table_area := marketDataTableArea area
  let description_width := description_width_of market_data_table_area
  let rows := (app_state.quotes.drop uistate.market_data_scroll_pos).map
      (fun q => build_market_data_row q app_state.currency_symbol description_width)
  { title := "The Iron Ledger"
    status_title := "Connected"
    market_data_title := "Realtime market data"
    market_data_border_color :=
      if uistate.market_data_active_panel = MarketDataActivePanel.MarketData then
        active_border_style
      else inactive_border_style
    latest_news_title := "Latest news"
    latest_news_border_color :=
      if uistate.market_data_active_panel = MarketDataActivePanel.LatestNews then
        active_border_style
      else inactive_border_style
    table := { header := ["Ticker", "Name", "Price", "Change%", "Description"], rows := rows }
    scrollbar :=
      { content_length := app_state.quotes.length
        position := uistate.market_data_scroll_pos
        viewport_content_length := 5 }
    scrollbar_color :=
      if uistate.market_data_active_panel = MarketDataActivePanel.MarketData then
        active_border_style
      else inactive_border_style
    price_footer := "Prices in " ++ app_state.currency_name_plural }

/-! ## Claims about the geometry and the frame composer -/

/-- **C2, counterexample.** The claim "the description column width
computed by the layout is at least 24 columns for every terminal area,
including width as small as 1" is false: for the 1-column-wide terminal
area `⟨0, 0, 1, 24⟩` the computed description width is
`max 0 24 - 4 = 20 < 24`. -/
theorem description_width_below_24 :
    descriptionWidth { x := 0, y := 0, width := 1, height := 24 } = 20 ∧
    ¬ 24 ≤ descriptionWidth { x := 0, y := 0, width := 1, height := 24 } := by
  constructor <;> decide

/-- **C2, amended.** For every terminal area the description column width
is at least 20 columns: the layout floors the fill-column remainder at 24
and then subtracts the 4 columns of inter-column spacing, so the bound
that actually holds is `max(remaining, 24) - 4 ≥ 20`, the 24-column floor
applying before the spacing overhead is removed. -/
theorem description_width_min (area : Rect) :
    20 ≤ descriptionWidth area ∧
    descriptionWidth area = max (fillColumnWidth (marketDataTableArea area).width) 24 - 4 := by
  refine ⟨?_, rfl⟩
  show 20 ≤ max (fillColumnWidth (marketDataTableArea area).width) 24 - 4
  omega

/-- **C8.** For every quote list and scroll position, the table laid out
by `draw` contains exactly the quotes with the first `scroll_pos` entries
skipped, in order, each formatted (with its own computed height) by
`build_market_data_row`; and the scrollbar state has content length equal
to the total quote count, position equal to `scroll_pos`, and the fixed
nominal viewport size 5. -/
theorem table_rows_and_scrollbar (app_state : AppState) (uistate : UIState)
    (area : Rect) :
    (draw app_state uistate area).table.rows
        = (app_state.quotes.drop uistate.market_data_scroll_pos).map
            (fun q => build_market_data_row q app_state.currency_symbol
              (descriptionWidth area)) ∧
    (draw app_state uistate area).scrollbar.content_length = app_state.quotes.length ∧
    (draw app_state uistate area).scrollbar.position = uistate.market_data_scroll_pos ∧
    (draw app_state uistate area).scrollbar.viewport_content_length = 5 :=
  ⟨rfl, rfl, rfl, rfl⟩

/-- **C9.** The frame composer is a pure function of
`(AppState, UIState, terminal area)`: two invocations on equal inputs
produce identical screen contents.  That `draw` mutates neither state nor
performs I/O is reflected in its type in this embedding: it consumes the
states and returns only a `FrameContent`. -/
theorem draw_deterministic (a₁ a₂ : AppState) (u₁ u₂ : UIState) (r₁ r₂ : Rect)
    (ha : a₁ = a₂) (hu : u₁ = u₂) (hr : r₁ = r₂) :
    draw a₁ u₁ r₁ = draw a₂ u₂ r₂ := by
  subst ha; subst hu; subst hr; rfl

/-- Witness for **C9** at a concrete input: an empty application state,
the initial interactive state, an 80×24 terminal. -/
theorem draw_deterministic_witness :
    draw { quotes := [], currency_name_plural := "Cogmarks", currency_symbol := "₡" }
        initUIState { x := 0, y := 0, width := 80, height := 24 }
      = draw { quotes := [], currency_name_plural := "Cogmarks", currency_symbol := "₡" }
        initUIState { x := 0, y := 0, width := 80, height := 24 } :=
  draw_deterministic _ _ _ _ _ _ rfl rfl rfl

/-- **C10.** The rendered frame does not depend on
`latest_news_scroll_pos`: two interactive states sharing the focused
panel and the market-data offset but differing in the news offset render
identically (the news panel's scroll offset is never read by `draw`). -/
theorem draw_ignores_news_scroll (app_state : AppState) (area : Rect)
    (panel : MarketDataActivePanel) (mdPos n₁ n₂ : Nat) :
    draw app_state
        { market_data_active_panel := panel
          market_data_scroll_pos := mdPos
          latest_news_scroll_pos := n₁ } area
      = draw app_state
        { market_data_active_panel := panel
          market_data_scroll_pos := mdPos
          latest_news_scroll_pos := n₂ } area := rfl

/-! ## Claims about the row formatter -/

/-- The percent-change expression in `build_market_data_row`. -/
def percent_change_of (sq : StockQuote) : ℚ :=
  (sq.quote.price - sq.quote.price_yesterday) / sq.quote.price_yesterday * 100

/-- The description of BrassCog Industries from the company list in `main`. -/
def bciDescription : String :=
  "Specializes in manufacturing precision brass cogs and gears for airships and automatons."

/-- The description of Aether Dynamics from the company list in `main`. -/
def aethDescription : String :=
  "A leading innovator in aether-based propulsion systems and energy harnessing technologies."

/-- BrassCog Industries with a quote that gained from 900 to 1000. -/
def bciUpQuote : StockQuote :=
  { company := { ticker := "BCI", name := "BrassCog Industries", description := bciDescription }
    quote := { price := 1000, price_yesterday := 900 } }

/-- BrassCog Industries with an unchanged price. -/
def bciFlatQuote : StockQuote :=
  { company := { ticker := "BCI", name := "BrassCog Industries", description := bciDescription }
    quote := { price := 900, price_yesterday := 900 } }

/-- A fragment is left whole by `breakFrag` as soon as it fits the width. -/
lemma breakFrag_of_fits (width : Nat) (f : Frag)
    (h : f.text.length ≤ width) : breakFrag width f = [f] := by
  simp [breakFrag, h]

/-- A word with no hyphen split point yields a single non-gluing
fragment. -/
lemma wordFrags_of_nosplit (word : String)
    (h : hyphenPieces word = [word]) :
    wordFrags word = [{ text := word, glueNext := false }] := by
  unfold wordFrags
  rw [h]
  rfl

/-- Flattening a map that sends every element to a singleton is the
elementwise map. -/
lemma flatten_map_singleton_map {α β : Type} (g : α → List β) (h : α → β) :
    ∀ l : List α, (∀ x ∈ l, g x = [h x]) → (l.map g).flatten = l.map h := by
  intro l hl
  induction l with
  | nil => rfl
  | cons x xs ih =>
      have hx : g x = [h x] := hl x (by simp)
      have hxs := ih (fun y hy => hl y (by simp [hy]))
      simp [hx, hxs]

/-- When every word of the text fits the width and has no hyphen split
point, the fragment stream is just the word list, one non-gluing
fragment per word. -/
lemma textFrags_of_plain (width : Nat) (s : String)
    (h : ∀ word ∈ splitWords s, word.length ≤ width ∧ hyphenPieces word = [word]) :
    textFrags width s
      = (splitWords s).map (fun word => { text := word, glueNext := false }) := by
  have h1 : ((splitWords s).map wordFrags).flatten
      = (splitWords s).map (fun word => ({ text := word, glueNext := false } : Frag)) :=
    flatten_map_singleton_map wordFrags _ (splitWords s)
      (fun x hx => wordFrags_of_nosplit x (h x hx).2)
  have h2 : ∀ f ∈ (splitWords s).map (fun word => ({ text := word, glueNext := false } : Frag)),
      breakFrag width f = [f] := by
    intro f hf
    rcases List.mem_map.mp hf with ⟨word, hw, rfl⟩
    exact breakFrag_of_fits width _ (h word hw).1
  unfold textFrags
  rw [h1, flatten_map_singleton_map (breakFrag width) id _ h2, List.map_id]

/-- Over a stream of whole-word, non-gluing fragments, the fragment fill
is exactly the spec-side word fill. -/
lemma greedyFragsAux_no_glue (width : Nat) :
    ∀ (ws : List String) (cur : String),
      greedyFragsAux width
          (ws.map (fun word => ({ text := word, glueNext := false } : Frag))) cur false
        = greedyFillAux width ws cur := by
  intro ws
  induction ws with
  | nil => intro cur; rfl
  | cons w' ws ih =>
      intro cur
      simp only [List.map_cons, greedyFragsAux, greedyFillAux, if_false,
        Bool.false_eq_true, ite_false]
      by_cases hc : cur.length + 1 + w'.length ≤ width <;> simp [hc, ih]

/-- When every word of the text fits the width and has no hyphen split
point, the wrap the code performs coincides with the spec's greedy
no-split word-wrap. -/
lemma wrapText_eq_greedySpec (width : Nat) (s : String)
    (h : ∀ word ∈ splitWords s, word.length ≤ width ∧ hyphenPieces word = [word]) :
    wrapText width s = wrapGreedySpec width s := by
  unfold wrapText wrapGreedySpec
  rw [textFrags_of_plain width s h]
  cases hw : splitWords s with
  | nil => rfl
  | cons w0 ws =>
      simp only [List.map_cons]
      exact greedyFragsAux_no_glue width ws w0

/-- **C5, counterexample.** The claim that the row formatter's wrap never
splits words fails twice over.  At width 5 the BrassCog description is
rendered with the line `"Speci"`, a proper fragment of the word
`"Specializes"` and not a word of the description (the `break_words`
default of the `textwrap` options used by the code breaks over-long
words).  And even when every word fits the width, hyphenated words are
split: at width 30 every word of the Aether Dynamics description is at
most 30 columns wide, yet the wrap renders the line
`"A leading innovator in aether-"`, splitting `"aether-based"` after its
hyphen (the `HyphenSplitter` default).  Both wraps differ from the spec's
greedy no-split word-wrap. -/
theorem wrap_splits_long_words :
    ("Speci" ∈ wrapText 5 bciDescription ∧
      "Speci" ∉ splitWords bciDescription ∧
      wrapText 5 bciDescription ≠ wrapGreedySpec 5 bciDescription) ∧
    ((∀ word ∈ splitWords aethDescription, word.length ≤ 30) ∧
      "A leading innovator in aether-" ∈ wrapText 30 aethDescription ∧
      "aether-based" ∈ splitWords aethDescription ∧
      "aether-" ∉ splitWords aethDescription ∧
      wrapText 30 aethDescription ≠ wrapGreedySpec 30 aethDescription) := by
  refine ⟨⟨by decide, by decide, by decide⟩,
    by decide, by decide, by decide, by decide, by decide⟩

/-- **C5, amended.** The row formatter wraps the description by greedy
word-wrap at `description_width`, except that words longer than the width
are first broken into width-sized pieces and hyphenated words may be
split after an internal hyphen (the `break_words` and `HyphenSplitter`
defaults of the `textwrap` options the code uses); whenever every word of
the description fits within the width and has no hyphen split point, the
wrap is exactly the spec's greedy no-split word-wrap.  The returned row
height equals the number of wrapped lines, and the height depends only on
the description and the width, so equal inputs always yield equal
heights. -/
theorem row_height_eq_wrap_lines (sq sq' : StockQuote) (sym sym' : String)
    (w : Nat)
    (hwords : ∀ word ∈ splitWords sq.company.description,
      word.length ≤ w ∧ hyphenPieces word = [word])
    (hdesc : sq'.company.description = sq.company.description) :
    (build_market_data_row sq sym w).height
        = (wrapText w sq.company.description).length ∧
    wrapText w sq.company.description = wrapGreedySpec w sq.company.description ∧
    (build_market_data_row sq sym w).height
        = (wrapGreedySpec w sq.company.description).length ∧
    (build_market_data_row sq' sym' w).height
        = (build_market_data_row sq sym w).height := by
  have hgreedy := wrapText_eq_greedySpec w sq.company.description hwords
  refine ⟨rfl, hgreedy, ?_, ?_⟩
  · show (wrapText w sq.company.description).length
        = (wrapGreedySpec w sq.company.description).length
    rw [hgreedy]
  · show (wrapText w sq'.company.description).length
        = (wrapText w sq.company.description).length
    rw [hdesc]

/-- Witness for **C5 amended** at a concrete input: the BrassCog
description wrapped at width 24 (all its words fit within 24 columns and
none contains a hyphen split point), compared against a second quote
carrying the same description for the symbol-independence part. -/
theorem row_height_eq_wrap_lines_witness :
    ((build_market_data_row bciUpQuote "₡" 24).height
        = (wrapText 24 bciDescription).length ∧
      wrapText 24 bciDescription = wrapGreedySpec 24 bciDescription ∧
      (build_market_data_row bciUpQuote "₡" 24).height
        = (wrapGreedySpec 24 bciDescription).length ∧
      (build_market_data_row
        { company := { ticker := "BCI", name := "BrassCog Industries", description := bciDescription }
          quote := { price := 500, price_yesterday := 600 } } "X" 24).height
        = (build_market_data_row bciUpQuote "₡" 24).height) :=
  row_height_eq_wrap_lines bciUpQuote
    { company := { ticker := "BCI", name := "BrassCog Industries", description := bciDescription }
      quote := { price := 500, price_yesterday := 600 } }
    "₡" "X" 24 (by decide) rfl

/-- The change cell of any formatted row, read off the definition. -/
lemma change_cell_generic (sq : StockQuote) (sym : String) (w : Nat) :
    (build_market_data_row sq sym w).cells.get? 3
      = some { lines := [padLeft 6 (fmtFixed2 (percent_change_of sq)) ++ "%"]
               color := some (if 0 ≤ percent_change_of sq then Color.Green else Color.Red) } :=
  rfl

/-- The gained-price sample has percent change `100/9 = 11.11…`. -/
lemma percent_change_of_bciUpQuote :
    percent_change_of bciUpQuote = Rat.divInt 100 9 := by
  norm_num [percent_change_of, bciUpQuote, Rat.divInt_eq_div]

/-- The flat-price sample has percent change `0`. -/
lemma percent_change_of_bciFlatQuote :
    percent_change_of bciFlatQuote = 0 := by
  norm_num [percent_change_of, bciFlatQuote]

/-- **C6, counterexample.** The claim that a quote with `price = 1000.0`
and `price_yesterday = 900.0` displays `"+11.11%"` is false: Rust's
right-aligned width-6 2-decimal format emits no plus sign, so the change
cell reads `" 11.11%"` (leading space, no `+`). -/
theorem percent_display_has_no_plus :
    (build_market_data_row bciUpQuote "₡" 24).cells.get? 3
        = some { lines := [" 11.11%"], color := some Color.Green } ∧
    " 11.11%" ≠ "+11.11%" := by
  constructor
  · rw [change_cell_generic, percent_change_of_bciUpQuote]
    decide
  · decide

/-- **C6, amended.** For every quote with a positive previous price, the
displayed percent change equals
`(price - price_yesterday) / price_yesterday * 100` rendered with 2
decimal places right-aligned to width 6 with a trailing percent sign and
no explicit plus sign, and it is styled green (positive) exactly when the
percent change is `≥ 0` (zero included) and red otherwise; in particular
`price = 1000`, `price_yesterday = 900` displays `" 11.11%"` in green, and
`price = price_yesterday` displays `"  0.00%"` in green. -/
theorem percent_change_display (sq : StockQuote) (sym : String) (w : Nat)
    (hpy : 0 < sq.quote.price_yesterday) :
    ((build_market_data_row sq sym w).cells.get? 3
        = some { lines := [padLeft 6 (fmtFixed2 (percent_change_of sq)) ++ "%"]
                 color := some (if 0 ≤ percent_change_of sq then Color.Green else Color.Red) } ∧
      (((build_market_data_row sq sym w).cells.get? 3).map Cell.color
          = some (some Color.Green) ↔ 0 ≤ percent_change_of sq)) ∧
    (build_market_data_row bciUpQuote "₡" 24).cells.get? 3
        = some { lines := [" 11.11%"], color := some Color.Green } ∧
    (build_market_data_row bciFlatQuote "₡" 24).cells.get? 3
        = some { lines := ["  0.00%"], color := some Color.Green } := by
  refine ⟨⟨change_cell_generic sq sym w, ?_⟩, ?_, ?_⟩
  · rw [change_cell_generic]
    by_cases hc : 0 ≤ percent_change_of sq <;> simp [hc]
  · rw [change_cell_generic, percent_change_of_bciUpQuote]
    decide
  · rw [change_cell_generic, percent_change_of_bciFlatQuote]
    decide

/-- Witness for **C6 amended** at a concrete input: the gained-price
BrassCog quote, whose previous price 900 is positive. -/
theorem percent_change_display_witness :
    ((build_market_data_row bciUpQuote "₡" 24).cells.get? 3
        = some { lines := [padLeft 6 (fmtFixed2 (percent_change_of bciUpQuote)) ++ "%"]
                 color := some (if 0 ≤ percent_change_of bciUpQuote then Color.Green else Color.Red) } ∧
      (((build_market_data_row bciUpQuote "₡" 24).cells.get? 3).map Cell.color
          = some (some Color.Green) ↔ 0 ≤ percent_change_of bciUpQuote)) ∧
    (build_market_data_row bciUpQuote "₡" 24).cells.get? 3
        = some { lines := [" 11.11%"], color := some Color.Green } ∧
    (build_market_data_row bciFlatQuote "₡" 24).cells.get? 3
        = some { lines := ["  0.00%"], color := some Color.Green } :=
  percent_change_display bciUpQuote "₡" 24 (by norm_num [bciUpQuote])

end TuiDashboard
